import Mathlib

/-!
Shallow embedding of `src/modules/video_composer/generate.py`
(`bearmanser/video-automation-pipeline`), the media timeline composition
engine: slug generation, audio/image pairing, transition effects, avatar
scaling and selection, resolution reconciliation, and the resource
lifecycle of `compose_video`.

Durations, scale factors and frame sizes are modelled over `ℚ` (Python
floats used only for exact small arithmetic), paths over `String`, and
the stateful parts of `compose_video` as an explicit step function that
records which media handles are opened and closed.
-/

namespace VideoComposer

/-! ### `_slugify` (generate.py lines 44-48) and `_prepare_output_dir` (195-201) -/

/-- Splitting a character list at a separator, as Python `str.split(sep)`:
`split '-' "a--b" = ["a", "", "b"]`. -/
def splitOnChar (sep : Char) : List Char → List (List Char)
  | [] => [[]]
  | c :: rest =>
    match splitOnChar sep rest with
    | [] => [[]]
    | p :: ps => if c = sep then [] :: p :: ps else (c :: p) :: ps

/-- `_slugify` on the character list of the title: strip whitespace, turn
spaces into hyphens, keep only alphanumerics and hyphens, collapse runs of
hyphens (Python: join of the non-empty split parts), default `"video"`. -/
def slugifyChars (value : List Char) : List Char :=
  let stripped := ((value.dropWhile Char.isWhitespace).reverse.dropWhile Char.isWhitespace).reverse
  let cleaned := stripped.map (fun c => if c = ' ' then '-' else c)
  let sanitized := cleaned.filter (fun c => c.isAlphanum || c = '-')
  let parts := (splitOnChar '-' sanitized).filter (fun p => p ≠ [])
  let collapsed := (parts.intersperse ['-']).flatten
  if collapsed = [] then ['v', 'i', 'd', 'e', 'o'] else collapsed

/-- `_slugify` (generate.py lines 44-48). -/
def slugify (value : String) : String :=
  String.mk (slugifyChars value.toList)

/-- `DEFAULT_VIDEO_FILENAME` (generate.py line 25). -/
def DEFAULT_VIDEO_FILENAME : String := "final_video.mp4"

/-- `_prepare_output_dir` (generate.py lines 195-201): requires a non-empty
video id and returns `channel/<slug>-<id>` (the `mkdir` side effect is not
modelled; the returned directory path is). -/
def prepareOutputDir (videoTitle videoId : String) : Except String String :=
  if videoId = "" then .error "video_id is required to compose the video"
  else .ok ("channel/" ++ slugify videoTitle ++ "-" ++ videoId)

/-- The output path `compose_video` writes to (generate.py lines 270-271):
`<output_dir>/final_video.mp4`. -/
def composeOutputPath (videoTitle videoId : String) : Except String String :=
  (prepareOutputDir videoTitle videoId).map (fun dir => dir ++ "/" ++ DEFAULT_VIDEO_FILENAME)

/-! ### `_pair_media` (generate.py lines 227-234) -/

/-- `itertools.zip_longest` with `fillvalue=None`. -/
def zipLongest {α β : Type} : List α → List β → List (Option α × Option β)
  | [], bs => bs.map (fun b => ((none : Option α), some b))
  | a :: as_, [] => (some a, none) :: zipLongest as_ []
  | a :: as_, b :: bs => (some a, some b) :: zipLongest as_ bs

/-- The loop body of `_pair_media`: stop at the first exhausted audio slot,
fill a missing image with the last image. -/
def pairLoop {α β : Type} (lastImage : β) : List (Option α × Option β) → List (α × β)
  | [] => []
  | (none, _) :: _ => []
  | (some a, img) :: rest => (a, img.getD lastImage) :: pairLoop lastImage rest

/-- `_pair_media` (generate.py lines 227-234); `none` models the `IndexError`
of `image_paths[-1]` on an empty image list. -/
def pairMedia {α β : Type} (audioPaths : List α) (imagePaths : List β) :
    Option (List (α × β)) :=
  match imagePaths.getLast? with
  | none => none
  | some lastImage => some (pairLoop lastImage (zipLongest audioPaths imagePaths))

/-! ### `_apply_transitions` (generate.py lines 51-56) and the effective
transition duration (lines 330-334) -/

/-- An effect applied to a clip by `clip.fx`. -/
inductive Effect
  | fadein (duration : ℚ)
  | fadeout (duration : ℚ)
deriving Repr, DecidableEq

/-- A video clip abstracted to the list of effects applied to it. -/
structure Clip where
  effects : List Effect
deriving Repr, DecidableEq

/-- `_apply_transitions` (generate.py lines 51-56): no-op for a
non-positive duration, otherwise `fx(fadein, d)` then `fx(fadeout, d)`. -/
def applyTransitions (clip : Clip) (transitionDuration : ℚ) : Clip :=
  if transitionDuration ≤ 0 then clip
  else { clip with
          effects := clip.effects ++ [Effect.fadein transitionDuration, Effect.fadeout transitionDuration] }

/-- The effective transition duration of a segment (generate.py lines
330-334): `min(transition_duration, audio_clip.duration / 2)` when both the
audio duration and the configured duration are truthy, else `0`. -/
def effectiveTransition (transitionDuration audioDuration : ℚ) : ℚ :=
  if audioDuration ≠ 0 ∧ transitionDuration ≠ 0 then
    min transitionDuration (audioDuration / 2)
  else 0

/-! ### `_scale_avatar_image` (generate.py lines 95-112) -/

/-- The scale factor computed by `_scale_avatar_image` (generate.py lines
102-106): bound the avatar inside 28% of the frame width and 80% of the
frame height, capped at 1. -/
def avatarScaleFactor (avatarW avatarH baseW baseH : ℕ) : ℚ :=
  let maxWidth : ℚ := (baseW : ℚ) * (28 / 100)
  let maxHeight : ℚ := (baseH : ℚ) * (8 / 10)
  let widthFactor : ℚ := if avatarW ≠ 0 then maxWidth / (avatarW : ℚ) else 1
  let heightFactor : ℚ := if avatarH ≠ 0 then maxHeight / (avatarH : ℚ) else 1
  min (min widthFactor heightFactor) 1

/-- `_scale_avatar_image` (generate.py lines 95-112) on image sizes: returns
the avatar size unchanged for a degenerate frame, otherwise
`(max(1, int(w*s)), max(1, int(h*s)))` (`int` truncates; the factor is
non-negative, so truncation is `Int.toNat ∘ Int.floor`). -/
def scaleAvatarImage (avatarW avatarH baseW baseH : ℕ) : ℕ × ℕ :=
  if baseW = 0 ∨ baseH = 0 then (avatarW, avatarH)
  else
    let s := avatarScaleFactor avatarW avatarH baseW baseH
    (max 1 (Int.toNat ⌊(avatarW : ℚ) * s⌋), max 1 (Int.toNat ⌊(avatarH : ℚ) * s⌋))

/-! ### `_determine_base_resolution` (generate.py lines 204-224) -/

/-- The image scan of `_determine_base_resolution` (generate.py lines
218-222): the first image whose reported dimensions are both non-zero. -/
def firstImageResolution : List (ℕ × ℕ) → Option (ℕ × ℕ)
  | [] => none
  | (w, h) :: rest => if w ≠ 0 ∧ h ≠ 0 then some (w, h) else firstImageResolution rest

/-- `_determine_base_resolution` (generate.py lines 204-224): explicit
resolution first, then the short clip's dimensions when both non-zero, then
the first image with non-zero dimensions, else `none`. -/
def determineBaseResolution (resolution : Option (ℕ × ℕ)) (short : Option (ℕ × ℕ))
    (images : List (ℕ × ℕ)) : Option (ℕ × ℕ) :=
  match resolution with
  | some r => some r
  | none =>
    match short with
    | some (w, h) => if w ≠ 0 ∧ h ≠ 0 then some (w, h) else firstImageResolution images
    | none => firstImageResolution images

/-! ### `AVATAR_PRIORITY` / `CASUAL_AVATAR_SEQUENCE` (generate.py lines
32-41) and `_select_avatar_asset` (lines 79-92) -/

/-- `CASUAL_AVATAR_SEQUENCE` (generate.py lines 32-36). -/
def casualAvatarSequence : List String :=
  ["assets/avatar/casual_1.png", "assets/avatar/casual_2.png", "assets/avatar/casual_3.png"]

/-- The module-level avatar mapping, as an association list in Python dict
insertion order: key-substring to prioritized candidate list. -/
abbrev AvatarState := List (String × List String)

/-- The initial value of `AVATAR_PRIORITY` (generate.py lines 37-41). -/
def initialAvatarPriority : AvatarState :=
  [("hook", ["assets/avatar/pointing_1.png"]),
   ("intro", ["assets/avatar/casual_1.png", "assets/avatar/waving_1.png"]),
   ("outro", ["assets/avatar/waving_1.png", "assets/avatar/casual_2.png"])]

/-- Python substring containment `needle in hay` on character lists. -/
def isSubstring : List Char → List Char → Bool
  | needle, [] => needle.isEmpty
  | needle, c :: rest => needle.isPrefixOf (c :: rest) || isSubstring needle rest

/-- `_select_avatar_asset` (generate.py lines 79-92) up to the filesystem
lookup `_resolve_avatar_path`: returns the preferred candidate list and the
module state after the call.  `preferred += CASUAL_AVATAR_SEQUENCE` on the
list aliased from `AVATAR_PRIORITY[section_key]` extends that list in
place, so in the keyed branch the state's entry for the key grows; in the
fallback branch `preferred` is a fresh single-element list and the state is
untouched. -/
def selectAvatarUpdate (state : AvatarState) (sectionName : String) (sectionIndex : ℕ) :
    List String × AvatarState :=
  match state.find? (fun kv => isSubstring kv.1.toList (sectionName.toList.map Char.toLower)) with
  | some (key, candidates) =>
    let preferred := candidates ++ casualAvatarSequence
    (preferred, state.map (fun kv => if kv.1 = key then (kv.1, preferred) else kv))
  | none =>
    let cyclic := casualAvatarSequence.getD (sectionIndex % casualAvatarSequence.length) ""
    ([cyclic] ++ casualAvatarSequence, state)

/-! ### Ken-Burns zoom -/

/-- Modelled from the spec: the Ken-Burns zoom of the Effects Pipeline
(spec section 4.3) — no zoom implementation exists under
`src/modules/video_composer/generate.py` (the configured zoom factor
defaults to 1.0, i.e. disabled, and the shipped variant omits the effect).
Scale of the visual at time `t` for a segment of duration `D` and zoom
factor `Z`: a no-op when `Z ≤ 1` or `D` is non-positive, else
`1 + (Z - 1) * clamp(t/D, 0, 1)`. -/
def zoomScale (D Z t : ℚ) : ℚ :=
  if Z ≤ 1 ∨ D ≤ 0 then 1
  else 1 + (Z - 1) * min (max (t / D) 0) 1

/-! ### `compose_video` (generate.py lines 237-401)

The stateful body of `compose_video` is embedded as an executable step
function over an abstract world.  Inputs carry the facts the code queries
from the filesystem (existence, durations, native dimensions); a
`FailureSpec` injects the exceptions the code can encounter mid-loop
(`_render_frame_with_avatar` / `_select_avatar_asset` raising for a
segment, e.g. a missing avatar asset) and at the final encode
(`write_videofile` raising).  The run records every media handle acquired
and every handle released by the `finally` block, in order. -/

/-- A narration audio input: path, on-disk flag, duration in seconds. -/
structure AudioIn where
  path : String
  onDisk : Bool
  duration : ℚ
deriving Repr, DecidableEq

/-- A static image input: path, on-disk flag, native dimensions. -/
structure ImageIn where
  path : String
  onDisk : Bool
  width : ℕ
  height : ℕ
deriving Repr, DecidableEq

/-- The optional short-form video input: path, on-disk flag, native
dimensions, native duration. -/
structure ShortIn where
  path : String
  onDisk : Bool
  width : ℕ
  height : ℕ
  duration : ℚ
deriving Repr, DecidableEq

/-- The keyword arguments of `compose_video` that the model tracks. -/
structure ComposeInput where
  audioPaths : List AudioIn
  imagePaths : List ImageIn
  shortVideoPath : Option ShortIn
  videoTitle : String
  videoId : String
  resolution : Option (ℕ × ℕ)
  transitionDuration : ℚ
  shortVideoIndex : ℕ
deriving Repr

/-- Injected exceptions: `segmentFails i` makes the static-image branch of
loop iteration `i` raise after the segment's `AudioFileClip` is opened and
before the pair is appended; `encodeFails` makes `write_videofile` raise. -/
structure FailureSpec where
  segmentFails : ℕ → Bool
  encodeFails : Bool

/-- The media handles `compose_video` acquires. -/
inductive Handle
  | shortVideoClip
  | segmentAudio (i : ℕ)
  | segmentVisual (i : ℕ)
  | finalClip
  | bgMusicBase
  | bgMusic
  | compositeAudio
deriving Repr, DecidableEq

/-- The errors `compose_video` can raise. -/
inductive CError
  | emptyPaths (label : String)
  | missingFiles (label : String)
  | missingShortVideo
  | missingVideoId
  | segmentFailure (i : ℕ)
  | nameErrorCompositeVideoClip (i : ℕ)
  | noSegments
  | encodingFailure
deriving Repr, DecidableEq

/-- Filesystem activity before rendering starts. -/
inductive FsEvent
  | existsCheck (path : String)
  | openRead (path : String)
deriving Repr, DecidableEq

/-- One built timeline segment (an appended `clip_pairs` entry). -/
structure SegmentRec where
  index : ℕ
  audioDuration : ℚ
  visualDuration : ℚ
  usedResolution : Option (ℕ × ℕ)
  effTransition : ℚ
deriving Repr, DecidableEq

/-- The observable outcome of a `compose_video` call. -/
structure RunResult where
  outcome : Except CError String
  opened : List Handle
  closed : List Handle
  reads : List FsEvent
  segments : List SegmentRec
deriving Repr

/-- `_ensure_paths` (generate.py lines 185-192): empty list raises
`ValueError` with no filesystem access; otherwise every path's existence is
checked and any missing path raises `FileNotFoundError`. -/
def ensurePaths {α : Type} (get : α → String × Bool) (paths : List α) (label : String) :
    Except CError (List α) × List FsEvent :=
  if paths.isEmpty then (.error (.emptyPaths label), [])
  else
    let events := paths.map (fun p => FsEvent.existsCheck (get p).1)
    if (paths.filter (fun p => !(get p).2)).isEmpty then (.ok paths, events)
    else (.error (.missingFiles label), events)

/-- The read-only probes `_determine_base_resolution` performs (generate.py
lines 204-224): nothing when an explicit resolution is given; else the
short clip is opened, and the images are opened in order until one reports
non-zero dimensions. -/
def imageProbes : List ImageIn → List FsEvent
  | [] => []
  | im :: rest =>
    if im.width ≠ 0 ∧ im.height ≠ 0 then [FsEvent.openRead im.path]
    else FsEvent.openRead im.path :: imageProbes rest

/-- All resolution-probe events for a call. -/
def resolutionProbes (resolution : Option (ℕ × ℕ)) (short : Option ShortIn)
    (images : List ImageIn) : List FsEvent :=
  match resolution with
  | some _ => []
  | none =>
    match short with
    | some s =>
      FsEvent.openRead s.path ::
        (if s.width ≠ 0 ∧ s.height ≠ 0 then [] else imageProbes images)
    | none => imageProbes images

/-- The base resolution `compose_video` computes once, before the loop
(generate.py lines 273-277). -/
def inputBaseResolution (inp : ComposeInput) : Option (ℕ × ℕ) :=
  determineBaseResolution inp.resolution
    (inp.shortVideoPath.map (fun s => (s.width, s.height)))
    (inp.imagePaths.map (fun im => (im.width, im.height)))

/-- The segment loop (generate.py lines 290-337), from iteration index `i`
over the pairs produced by `_pair_media`.  Returns the handles opened in
the loop (in order), the appended `clip_pairs` entries, and the exception
that aborted the loop, if any.

Per iteration: the segment's `AudioFileClip` is opened first.  When the
short clip is present and `i` equals the insertion index, the visual is
derived from the short clip and — whenever the effective visual size is
non-degenerate, so `_build_avatar_overlay` returns an overlay — the
unimported name `CompositeVideoClip` (generate.py line 314) raises
`NameError` before the pair is appended.  Otherwise an injected segment
failure models `_render_frame_with_avatar` raising.  A completed iteration
opens the visual clip and appends the pair. -/
def runLoop (fail : ℕ → Bool) (short : Option ShortIn) (shortIdx : ℕ)
    (baseRes : Option (ℕ × ℕ)) (td : ℚ) :
    ℕ → List (AudioIn × ImageIn) → List Handle × List SegmentRec × Option CError
  | _, [] => ([], [], none)
  | i, (a, _img) :: rest =>
    match short with
    | some s =>
      if i = shortIdx then
        let effSize := baseRes.getD (s.width, s.height)
        if effSize.1 ≠ 0 ∧ effSize.2 ≠ 0 then
          ([Handle.segmentAudio i], [], some (CError.nameErrorCompositeVideoClip i))
        else
          let target := if a.duration ≠ 0 then a.duration else s.duration
          let visualDur := if target ≠ 0 then target else s.duration
          let seg : SegmentRec :=
            ⟨i, a.duration, visualDur, baseRes, effectiveTransition td a.duration⟩
          let next := runLoop fail short shortIdx baseRes td (i + 1) rest
          (Handle.segmentAudio i :: Handle.segmentVisual i :: next.1,
           seg :: next.2.1, next.2.2)
      else if fail i then
        ([Handle.segmentAudio i], [], some (CError.segmentFailure i))
      else
        let seg : SegmentRec :=
          ⟨i, a.duration, a.duration, baseRes, effectiveTransition td a.duration⟩
        let next := runLoop fail short shortIdx baseRes td (i + 1) rest
        (Handle.segmentAudio i :: Handle.segmentVisual i :: next.1,
         seg :: next.2.1, next.2.2)
    | none =>
      if fail i then
        ([Handle.segmentAudio i], [], some (CError.segmentFailure i))
      else
        let seg : SegmentRec :=
          ⟨i, a.duration, a.duration, baseRes, effectiveTransition td a.duration⟩
        let next := runLoop fail (none : Option ShortIn) shortIdx baseRes td (i + 1) rest
        (Handle.segmentAudio i :: Handle.segmentVisual i :: next.1,
         seg :: next.2.1, next.2.2)

/-- The `finally` block's per-pair closes (generate.py lines 366-374):
`clip.close()` then `audio_clip.close()` for every appended pair, in
order. -/
def pairClose (segs : List SegmentRec) : List Handle :=
  segs.flatMap (fun s => [Handle.segmentVisual s.index, Handle.segmentAudio s.index])

/-- The `short_video_clip` handle opened at the top of the `try` block
(generate.py lines 287-288), when a short clip is present. -/
def shortOpenedHandles : Option ShortIn → List Handle
  | some _ => [Handle.shortVideoClip]
  | none => []

/-- The `try`/`finally` rendering phase (generate.py lines 286-399), after
validation: open the short clip if present, run the segment loop, then —
when the loop completed — concatenate, open the background-music clips and
the composite audio, and encode.  The `finally` block closes the appended
pairs, then `final_clip`, `composite_audio`, `bg_music`, `bg_music_base`
and `short_video_clip` whenever each was assigned. -/
def renderPhase (fail : FailureSpec) (short : Option ShortIn) (shortIdx : ℕ)
    (baseRes : Option (ℕ × ℕ)) (td : ℚ) (pairs : List (AudioIn × ImageIn))
    (outPath : String) :
    Except CError String × List Handle × List Handle × List SegmentRec :=
  let shortOpened := shortOpenedHandles short
  let loop := runLoop fail.segmentFails short shortIdx baseRes td 0 pairs
  match loop.2.2 with
  | some e =>
    (.error e, shortOpened ++ loop.1, pairClose loop.2.1 ++ shortOpened, loop.2.1)
  | none =>
    if loop.2.1.isEmpty then
      (.error .noSegments, shortOpened ++ loop.1, pairClose loop.2.1 ++ shortOpened,
       loop.2.1)
    else
      let post := [Handle.finalClip, Handle.bgMusicBase, Handle.bgMusic,
                   Handle.compositeAudio]
      let closed := pairClose loop.2.1 ++
        [Handle.finalClip, Handle.compositeAudio, Handle.bgMusic, Handle.bgMusicBase] ++
        shortOpened
      if fail.encodeFails then
        (.error .encodingFailure, shortOpened ++ loop.1 ++ post, closed, loop.2.1)
      else
        (.ok outPath, shortOpened ++ loop.1 ++ post, closed, loop.2.1)

/-- `compose_video` (generate.py lines 237-401): validate the audio paths,
the image paths, the short clip and the video id, resolve the output path
and the base resolution, then run the rendering phase. -/
def composeRun (inp : ComposeInput) (fail : FailureSpec) : RunResult :=
  match ensurePaths (fun a => (a.path, a.onDisk)) inp.audioPaths "audio" with
  | (.error e, evs) => ⟨.error e, [], [], evs, []⟩
  | (.ok _, evA) =>
    match ensurePaths (fun im => (im.path, im.onDisk)) inp.imagePaths "image" with
    | (.error e, evs) => ⟨.error e, [], [], evA ++ evs, []⟩
    | (.ok _, evI) =>
      let afterShort := fun (short : Option ShortIn) (evS : List FsEvent) =>
        match composeOutputPath inp.videoTitle inp.videoId with
        | .error _ => RunResult.mk (.error .missingVideoId) [] [] (evA ++ evI ++ evS) []
        | .ok outPath =>
          let baseRes := inputBaseResolution inp
          let probes := resolutionProbes inp.resolution short inp.imagePaths
          match pairMedia inp.audioPaths inp.imagePaths with
          | none =>
            RunResult.mk (.error (.emptyPaths "image")) [] []
              (evA ++ evI ++ evS ++ probes) []
          | some pairs =>
            let phase := renderPhase fail short inp.shortVideoIndex baseRes
              inp.transitionDuration pairs outPath
            RunResult.mk phase.1 phase.2.1 phase.2.2.1
              (evA ++ evI ++ evS ++ probes) phase.2.2.2
      match inp.shortVideoPath with
      | some s =>
        if s.onDisk then afterShort (some s) [FsEvent.existsCheck s.path]
        else ⟨.error .missingShortVideo, [], [],
              evA ++ evI ++ [FsEvent.existsCheck s.path], []⟩
      | none => afterShort none []

/-! ## Helper lemmas -/

/-- `splitOnChar` never returns an empty list of parts. -/
theorem splitOnChar_ne_nil (sep : Char) (l : List Char) : splitOnChar sep l ≠ [] := by
  cases l with
  | nil => simp [splitOnChar]
  | cons c rest =>
    simp only [splitOnChar]
    cases h : splitOnChar sep rest with
    | nil => simp
    | cons p ps =>
      by_cases hc : c = sep <;> simp [hc]

/-- Every character of a part produced by `splitOnChar` occurs in the input. -/
theorem mem_of_mem_splitOnChar (sep : Char) :
    ∀ (l : List Char) (p : List Char), p ∈ splitOnChar sep l → ∀ c ∈ p, c ∈ l := by
  intro l
  induction l with
  | nil =>
    intro p hp c hc
    simp [splitOnChar] at hp
    subst hp
    simp at hc
  | cons c0 rest ih =>
    intro p hp c hc
    simp only [splitOnChar] at hp
    cases h : splitOnChar sep rest with
    | nil => exact absurd h (splitOnChar_ne_nil sep rest)
    | cons p0 ps =>
      rw [h] at hp
      have hp2 : p ∈ (if c0 = sep then ([] : List Char) :: p0 :: ps else (c0 :: p0) :: ps) := hp
      by_cases hc0 : c0 = sep
      · rw [if_pos hc0] at hp2
        rcases List.mem_cons.mp hp2 with hp2 | hp2
        · subst hp2; simp at hc
        · have hpm : p ∈ splitOnChar sep rest := by rw [h]; exact hp2
          have := ih p hpm c hc
          exact List.mem_cons_of_mem c0 this
      · rw [if_neg hc0] at hp2
        rcases List.mem_cons.mp hp2 with hp2 | hp2
        · subst hp2
          rcases List.mem_cons.mp hc with hc | hc
          · exact hc ▸ List.mem_cons_self c0 rest
          · have hp0 : p0 ∈ splitOnChar sep rest := by rw [h]; exact List.mem_cons_self p0 ps
            exact List.mem_cons_of_mem c0 (ih p0 hp0 c hc)
        · have hpm : p ∈ splitOnChar sep rest := by rw [h]; exact List.mem_cons_of_mem p0 hp2
          exact List.mem_cons_of_mem c0 (ih p hpm c hc)

/-- A character of the flattened interspersion is the separator or comes
from one of the parts. -/
theorem mem_flatten_intersperse (sepc : Char) :
    ∀ (parts : List (List Char)) (c : Char),
      c ∈ (parts.intersperse [sepc]).flatten → c = sepc ∨ ∃ p ∈ parts, c ∈ p := by
  intro parts
  induction parts with
  | nil => intro c hc; simp at hc
  | cons p rest ih =>
    intro c hc
    cases rest with
    | nil =>
      simp at hc
      exact Or.inr ⟨p, by simp, hc⟩
    | cons q rest2 =>
      rw [List.intersperse_cons_cons, List.flatten_cons, List.flatten_cons] at hc
      rcases List.mem_append.mp hc with hc | hc
      · exact Or.inr ⟨p, by simp, hc⟩
      · rcases List.mem_append.mp hc with hc | hc
        · left; simpa using hc
        · rcases ih c hc with h | ⟨p2, hp2, hcp2⟩
          · exact Or.inl h
          · exact Or.inr ⟨p2, List.mem_cons_of_mem p hp2, hcp2⟩

/-- Every character a slug is built from is alphanumeric or a hyphen. -/
theorem slugifyChars_mem (v : List Char) (c : Char) (hc : c ∈ slugifyChars v) :
    c.isAlphanum = true ∨ c = '-' := by
  simp only [slugifyChars] at hc
  split at hc
  · simp only [List.mem_cons, List.not_mem_nil, or_false] at hc
    rcases hc with h | h | h | h | h <;> subst h <;> exact Or.inl (by decide)
  · rcases mem_flatten_intersperse '-' _ c hc with h | ⟨p, hp, hcp⟩
    · exact Or.inr h
    · have hps := (List.mem_filter.mp hp).1
      have hmem := mem_of_mem_splitOnChar '-' _ p hps c hcp
      have := (List.mem_filter.mp hmem).2
      simpa using this

/-- The slug is never the empty character list. -/
theorem slugifyChars_ne_nil (v : List Char) : slugifyChars v ≠ [] := by
  simp only [slugifyChars]
  split
  · simp
  · assumption

/-! ## Claim theorems -/

/-- C9, counterexample: the title `"ABC"` is slugified to `"ABC"` — the slug
component of the output path `channel/ABC-42/final_video.mp4` contains the
uppercase letter `A`, so the slug is not lowercase. -/
theorem output_path_uppercase_cex :
    slugify "ABC" = "ABC" ∧
    ('A' ∈ (slugify "ABC").toList ∧ 'A'.isUpper = true) ∧
    composeOutputPath "ABC" "42" = .ok "channel/ABC-42/final_video.mp4" :=
  ⟨rfl, ⟨by decide, by decide⟩, rfl⟩

/-- C9, amended: for every title and non-empty video id, `compose_video`
writes to the deterministic path `channel/<slug>-<id>/final_video.mp4`,
where the slug is a non-empty, filesystem-safe, hyphenated form of the
title built only from alphanumerics and hyphens (the original letter case
is preserved, not lowercased). -/
theorem output_path_slug_amended (title videoId : String) (hid : videoId ≠ "") :
    composeOutputPath title videoId =
      .ok ("channel/" ++ slugify title ++ "-" ++ videoId ++ "/" ++ DEFAULT_VIDEO_FILENAME) ∧
    slugify title ≠ "" ∧
    ∀ c ∈ (slugify title).toList, c.isAlphanum = true ∨ c = '-' := by
  refine ⟨?_, ?_, ?_⟩
  · simp [composeOutputPath, prepareOutputDir, hid, Except.map]
  · intro h
    exact slugifyChars_ne_nil title.toList (by simpa [slugify, String.ext_iff] using h)
  · intro c hc
    exact slugifyChars_mem title.toList c (by simpa [slugify] using hc)

/-- C9 witness at a concrete title and id. -/
theorem output_path_slug_amended_witness :
    composeOutputPath "My Video" "42" =
      .ok ("channel/" ++ slugify "My Video" ++ "-" ++ "42" ++ "/" ++ DEFAULT_VIDEO_FILENAME) ∧
    slugify "My Video" ≠ "" ∧
    ∀ c ∈ (slugify "My Video").toList, c.isAlphanum = true ∨ c = '-' :=
  output_path_slug_amended "My Video" "42" (by decide)

/-- C3: for a segment of positive audio duration `D` and any configured
transition duration `c`, the effective transition duration equals
`min(c, D/2)`, hence never exceeds `D/2`; and for every zero or negative
configured duration no fade-in or fade-out is applied. -/
theorem transition_cap_spec (D c : ℚ) (hD : 0 < D) :
    effectiveTransition c D = min c (D / 2) ∧
    effectiveTransition c D ≤ D / 2 ∧
    (c ≤ 0 → ∀ clip : Clip, applyTransitions clip (effectiveTransition c D) = clip) := by
  have hD2 : (0 : ℚ) < D / 2 := by positivity
  have h1 : effectiveTransition c D = min c (D / 2) := by
    by_cases hc : c = 0
    · subst hc
      rw [effectiveTransition, if_neg (by simp)]
      exact (min_eq_left hD2.le).symm
    · rw [effectiveTransition, if_pos ⟨hD.ne', hc⟩]
  refine ⟨h1, h1 ▸ min_le_right c (D / 2), ?_⟩
  intro hc clip
  have hle : effectiveTransition c D ≤ 0 := by
    rw [h1]
    exact le_trans (min_le_left c (D / 2)) hc
  rw [applyTransitions, if_pos hle]

/-- C3 witness: a zero configured duration on a one-second segment. -/
theorem transition_cap_witness :
    effectiveTransition 0 1 = min 0 ((1 : ℚ) / 2) ∧
    (∀ clip : Clip, applyTransitions clip (effectiveTransition 0 1) = clip) :=
  ⟨(transition_cap_spec 1 0 (by norm_num)).1,
   (transition_cap_spec 1 0 (by norm_num)).2.2 (by norm_num)⟩

/-- C6: for a segment of positive duration `D` and `0 ≤ t ≤ D`, the
Ken-Burns scale is `1 + (Z - 1) * clamp(t/D, 0, 1) = 1 + (Z - 1) * (t/D)`
for a zoom factor `Z > 1`, and the zoom is a no-op (scale 1) when `Z ≤ 1`
or the duration is zero. -/
theorem ken_burns_zoom_spec (D Z t : ℚ) (hD : 0 < D) (ht0 : 0 ≤ t) (htD : t ≤ D) :
    (1 < Z → zoomScale D Z t = 1 + (Z - 1) * (t / D)) ∧
    (Z ≤ 1 → zoomScale D Z t = 1) ∧
    (∀ W : ℚ, zoomScale 0 W t = 1) := by
  refine ⟨?_, ?_, ?_⟩
  · intro hZ
    rw [zoomScale, if_neg (by push_neg; exact ⟨hZ, hD⟩)]
    have hdiv0 : 0 ≤ t / D := div_nonneg ht0 hD.le
    have hdiv1 : t / D ≤ 1 := (div_le_one hD).mpr htD
    rw [max_eq_left hdiv0, min_eq_left hdiv1]
  · intro hZ
    rw [zoomScale, if_pos (Or.inl hZ)]
  · intro W
    rw [zoomScale, if_pos (Or.inr le_rfl)]

/-- C6 witness: `Z = 2` at mid-segment and `Z = 0` (disabled). -/
theorem ken_burns_zoom_witness :
    zoomScale 1 2 1 = 1 + (2 - 1) * ((1 : ℚ) / 1) ∧ zoomScale 1 0 1 = 1 :=
  ⟨(ken_burns_zoom_spec 1 2 1 (by norm_num) (by norm_num) (by norm_num)).1 (by norm_num),
   (ken_burns_zoom_spec 1 0 1 (by norm_num) (by norm_num) (by norm_num)).2.1 (by norm_num)⟩

/-- C7: a call of `compose_video` with an empty audio path list raises the
empty-input `ValueError` immediately: no media handle is opened, nothing is
closed, no filesystem access (existence check or read) happens, and no
segment is built. -/
theorem empty_audio_fails_fast (inp : ComposeInput) (fail : FailureSpec)
    (h : inp.audioPaths = []) :
    composeRun inp fail = ⟨.error (.emptyPaths "audio"), [], [], [], []⟩ := by
  simp [composeRun, ensurePaths, h]

/-- C7 witness: a concrete call with no audio paths but available images. -/
theorem empty_audio_fails_fast_witness :
    composeRun ⟨[], [⟨"frame.png", true, 640, 480⟩], none, "Title", "vid01", none, 1, 1⟩
        ⟨fun _ => false, false⟩ =
      ⟨.error (.emptyPaths "audio"), [], [], [], []⟩ :=
  empty_audio_fails_fast _ _ rfl

/-- C4, counterexample: for a 100×100 avatar on a 1×1 frame (positive
dimensions), the `max(1, …)` clamp produces a 1×1 avatar, whose width 1
exceeds `0.28 * 1 = 0.28` — the claimed bound `width ≤ 0.28·W` fails. -/
theorem avatar_scale_bounds_cex :
    scaleAvatarImage 100 100 1 1 = (1, 1) ∧
    ¬ (((scaleAvatarImage 100 100 1 1).1 : ℚ) ≤ (1 : ℚ) * (28 / 100)) := by
  have hs : avatarScaleFactor 100 100 1 1 = 7 / 2500 := by
    rw [avatarScaleFactor]
    norm_num [min_def]
  have himg : scaleAvatarImage 100 100 1 1 = (1, 1) := by
    rw [scaleAvatarImage, if_neg (by norm_num)]
    rw [hs]
    norm_num
  refine ⟨himg, ?_⟩
  rw [himg]
  norm_num

/-- C4, amended: the scale factor is always capped at 1 (never upscaled),
and the resized avatar fits within 28% of the frame width and 80% of the
frame height whenever those budgets are at least one pixel (the code's
`max(1, …)` floor can exceed the budgets on frames smaller than 4×2); both
dimensions are the same scale factor applied to the avatar's dimensions,
up to integer truncation and the 1-pixel minimum. -/
theorem avatar_scale_bounds_amended (aw ah W H : ℕ) (haw : 0 < aw) (hah : 0 < ah)
    (hW : (1 : ℚ) ≤ (W : ℚ) * (28 / 100)) (hH : (1 : ℚ) ≤ (H : ℚ) * (8 / 10)) :
    avatarScaleFactor aw ah W H ≤ 1 ∧
    ((scaleAvatarImage aw ah W H).1 : ℚ) ≤ (W : ℚ) * (28 / 100) ∧
    ((scaleAvatarImage aw ah W H).2 : ℚ) ≤ (H : ℚ) * (8 / 10) ∧
    scaleAvatarImage aw ah W H =
      (max 1 (Int.toNat ⌊(aw : ℚ) * avatarScaleFactor aw ah W H⌋),
       max 1 (Int.toNat ⌊(ah : ℚ) * avatarScaleFactor aw ah W H⌋)) := by
  have hW0 : W ≠ 0 := by
    rintro rfl
    norm_num at hW
  have hH0 : H ≠ 0 := by
    rintro rfl
    norm_num at hH
  set s := avatarScaleFactor aw ah W H with hs
  have himg : scaleAvatarImage aw ah W H =
      (max 1 (Int.toNat ⌊(aw : ℚ) * s⌋), max 1 (Int.toNat ⌊(ah : ℚ) * s⌋)) := by
    rw [scaleAvatarImage, if_neg (by simp [hW0, hH0])]
  have hawQ : (0 : ℚ) < (aw : ℚ) := by exact_mod_cast haw
  have hahQ : (0 : ℚ) < (ah : ℚ) := by exact_mod_cast hah
  have hwf : s ≤ (W : ℚ) * (28 / 100) / (aw : ℚ) := by
    rw [hs, avatarScaleFactor]
    simp only [if_pos haw.ne', if_pos hah.ne']
    exact le_trans (min_le_left _ _) (min_le_left _ _)
  have hhf : s ≤ (H : ℚ) * (8 / 10) / (ah : ℚ) := by
    rw [hs, avatarScaleFactor]
    simp only [if_pos haw.ne', if_pos hah.ne']
    exact le_trans (min_le_left _ _) (min_le_right _ _)
  have hs1 : s ≤ 1 := by
    rw [hs, avatarScaleFactor]
    exact min_le_right _ _
  have hs0 : 0 ≤ s := by
    rw [hs, avatarScaleFactor]
    simp only [if_pos haw.ne', if_pos hah.ne']
    have h1 : (0 : ℚ) ≤ (W : ℚ) * (28 / 100) / (aw : ℚ) := by positivity
    have h2 : (0 : ℚ) ≤ (H : ℚ) * (8 / 10) / (ah : ℚ) := by positivity
    exact le_min (le_min h1 h2) zero_le_one
  have hxw : (aw : ℚ) * s ≤ (W : ℚ) * (28 / 100) := by
    calc (aw : ℚ) * s ≤ (aw : ℚ) * ((W : ℚ) * (28 / 100) / (aw : ℚ)) :=
          mul_le_mul_of_nonneg_left hwf hawQ.le
    _ = (W : ℚ) * (28 / 100) := mul_div_cancel₀ _ hawQ.ne'
  have hxh : (ah : ℚ) * s ≤ (H : ℚ) * (8 / 10) := by
    calc (ah : ℚ) * s ≤ (ah : ℚ) * ((H : ℚ) * (8 / 10) / (ah : ℚ)) :=
          mul_le_mul_of_nonneg_left hhf hahQ.le
    _ = (H : ℚ) * (8 / 10) := mul_div_cancel₀ _ hahQ.ne'
  have hbound : ∀ (x bound : ℚ), 0 ≤ x → x ≤ bound → (1 : ℚ) ≤ bound →
      ((max 1 (Int.toNat ⌊x⌋) : ℕ) : ℚ) ≤ bound := by
    intro x bound hx hxb h1b
    have hfl : (0 : ℤ) ≤ ⌊x⌋ := Int.floor_nonneg.mpr hx
    have hq : ((Int.toNat ⌊x⌋ : ℕ) : ℚ) = ((⌊x⌋ : ℤ) : ℚ) := by
      exact_mod_cast congrArg (fun z : ℤ => (z : ℚ)) (Int.toNat_of_nonneg hfl)
    have hfx : ((⌊x⌋ : ℤ) : ℚ) ≤ x := Int.floor_le x
    rw [Nat.cast_max, max_le_iff]
    constructor
    · exact_mod_cast h1b
    · linarith
  refine ⟨hs1, ?_, ?_, himg⟩
  · rw [himg]
    exact hbound _ _ (mul_nonneg hawQ.le hs0) hxw hW
  · rw [himg]
    exact hbound _ _ (mul_nonneg hahQ.le hs0) hxh hH

/-- C4 witness: a 100×50 avatar on a 1920×1080 frame. -/
theorem avatar_scale_bounds_amended_witness :
    avatarScaleFactor 100 50 1920 1080 ≤ 1 ∧
    ((scaleAvatarImage 100 50 1920 1080).1 : ℚ) ≤ (1920 : ℚ) * (28 / 100) ∧
    ((scaleAvatarImage 100 50 1920 1080).2 : ℚ) ≤ (1080 : ℚ) * (8 / 10) ∧
    scaleAvatarImage 100 50 1920 1080 =
      (max 1 (Int.toNat ⌊(100 : ℚ) * avatarScaleFactor 100 50 1920 1080⌋),
       max 1 (Int.toNat ⌊(50 : ℚ) * avatarScaleFactor 100 50 1920 1080⌋)) := by
  have h := avatar_scale_bounds_amended 100 50 1920 1080 (by decide) (by decide)
    (by norm_num) (by norm_num)
  exact_mod_cast h

/-- Pairing against an exhausted image list repeats the last image. -/
theorem pairLoop_zipLongest_nil {α β : Type} (last : β) (audio : List α) :
    pairLoop last (zipLongest audio ([] : List β)) =
      audio.map (fun a => (a, last)) := by
  induction audio with
  | nil => rfl
  | cons a as_ ih => simp [zipLongest, pairLoop, ih]

/-- Structure of `_pair_media`'s loop when there are at least as many audio
paths as images: the positionwise zip followed by the remaining audio paths
each paired with the last image. -/
theorem pairLoop_zipLongest {α β : Type} (last : β) :
    ∀ (audio : List α) (images : List β), images.length ≤ audio.length →
      pairLoop last (zipLongest audio images) =
        audio.zip images ++ (audio.drop images.length).map (fun a => (a, last)) := by
  intro audio
  induction audio with
  | nil =>
    intro images h
    have : images = [] := List.eq_nil_of_length_eq_zero (Nat.le_zero.mp h)
    subst this
    rfl
  | cons a as_ ih =>
    intro images h
    cases images with
    | nil =>
      simp only [zipLongest, pairLoop, Option.getD_none, List.zip_nil_right,
        List.nil_append, List.length_nil, List.drop_zero, List.map_cons]
      rw [pairLoop_zipLongest_nil]
    | cons b bs =>
      simp only [zipLongest, pairLoop, Option.getD_some, List.zip_cons_cons,
        List.length_cons, List.drop_succ_cons, List.cons_append]
      rw [ih bs (by simpa using h)]

/-- C2: for `N` audio paths and `1 ≤ M ≤ N` images, `_pair_media` yields
exactly `N` pairs; pair `i < M` joins audio `i` with image `i`, and every
pair at positions `M‥N-1` reuses the last image. -/
theorem pair_media_timeline {α β : Type} (audio : List α) (images : List β)
    (hne : images ≠ []) (hlen : images.length ≤ audio.length) :
    ∃ l, pairMedia audio images = some l ∧
      l.length = audio.length ∧
      (∀ i (hi : i < images.length) (ha : i < audio.length),
        l[i]? = some (audio.get ⟨i, ha⟩, images.get ⟨i, hi⟩)) ∧
      (∀ i (hi : images.length ≤ i) (ha : i < audio.length),
        l[i]? = some (audio.get ⟨i, ha⟩, images.getLast hne)) := by
  have hlast : images.getLast? = some (images.getLast hne) :=
    List.getLast?_eq_getLast images hne
  refine ⟨pairLoop (images.getLast hne) (zipLongest audio images), ?_, ?_, ?_, ?_⟩
  · rw [pairMedia, hlast]
  · rw [pairLoop_zipLongest _ audio images hlen]
    simp only [List.length_append, List.length_zip, List.length_map, List.length_drop]
    omega
  · intro i hi ha
    rw [pairLoop_zipLongest _ audio images hlen]
    have hzl : i < (audio.zip images).length := by
      simp only [List.length_zip]
      omega
    rw [List.getElem?_append, if_pos hzl, List.getElem?_eq_getElem hzl]
    congr 1
    rw [List.getElem_zip]
    rfl
  · intro i hi ha
    rw [pairLoop_zipLongest _ audio images hlen]
    have hzlen : (audio.zip images).length = images.length := by
      simp only [List.length_zip]
      omega
    rw [List.getElem?_append, if_neg (by omega)]
    rw [List.getElem?_map, List.getElem?_drop]
    have hidx : images.length + (i - (audio.zip images).length) = i := by omega
    rw [hidx, List.getElem?_eq_getElem ha]
    rfl

/-- C2 witness: three audio paths against two images. -/
theorem pair_media_timeline_witness :
    ∃ l, pairMedia ["a1", "a2", "a3"] ["i1", "i2"] = some l ∧
      l.length = (["a1", "a2", "a3"] : List String).length ∧
      (∀ i (hi : i < (["i1", "i2"] : List String).length)
          (ha : i < (["a1", "a2", "a3"] : List String).length),
        l[i]? = some ((["a1", "a2", "a3"] : List String).get ⟨i, ha⟩,
          (["i1", "i2"] : List String).get ⟨i, hi⟩)) ∧
      (∀ i (hi : (["i1", "i2"] : List String).length ≤ i)
          (ha : i < (["a1", "a2", "a3"] : List String).length),
        l[i]? = some ((["a1", "a2", "a3"] : List String).get ⟨i, ha⟩,
          (["i1", "i2"] : List String).getLast (by decide))) :=
  pair_media_timeline ["a1", "a2", "a3"] ["i1", "i2"] (by decide) (by decide)

/-- If mapping a function over a list returns the list unchanged, the
function fixes every element. -/
theorem map_eq_self_fix {α : Type} {f : α → α} :
    ∀ {l : List α}, l.map f = l → ∀ x ∈ l, f x = x := by
  intro l
  induction l with
  | nil => intro _ x hx; simp at hx
  | cons a rest ih =>
    intro h x hx
    simp only [List.map_cons, List.cons.injEq] at h
    rcases List.mem_cons.mp hx with hx | hx
    · exact hx ▸ h.1
    · exact ih h.2 x hx

/-- C10: `_select_avatar_asset` mutates the shared module state — when the
section label contains a priority key, the aliased candidate list of that
key in `AVATAR_PRIORITY` is extended in place by the three-element casual
sequence (growing by three entries, leaving every other key's entry
unchanged, so the state after the call differs from the state before); when
no key matches, the module state is unchanged. -/
theorem avatar_priority_mutation :
    (∀ (state : AvatarState) (name : String) (idx : ℕ) (key : String)
        (cands : List String),
      state.find? (fun kv => isSubstring kv.1.toList (name.toList.map Char.toLower)) =
          some (key, cands) →
      (selectAvatarUpdate state name idx).2 =
        state.map (fun kv =>
          if kv.1 = key then (kv.1, cands ++ casualAvatarSequence) else kv) ∧
      (cands ++ casualAvatarSequence).length = cands.length + 3 ∧
      (selectAvatarUpdate state name idx).2 ≠ state ∧
      (∀ kv ∈ state, kv.1 ≠ key → kv ∈ (selectAvatarUpdate state name idx).2)) ∧
    (∀ (state : AvatarState) (name : String) (idx : ℕ),
      state.find? (fun kv => isSubstring kv.1.toList (name.toList.map Char.toLower)) =
          none →
      (selectAvatarUpdate state name idx).2 = state) := by
  constructor
  · intro state name idx key cands hfind
    have hupd : (selectAvatarUpdate state name idx).2 =
        state.map (fun kv =>
          if kv.1 = key then (kv.1, cands ++ casualAvatarSequence) else kv) := by
      simp only [selectAvatarUpdate, hfind]
    refine ⟨hupd, by simp [casualAvatarSequence], ?_, ?_⟩
    · intro hsame
      rw [hupd] at hsame
      have hmem : (key, cands) ∈ state := List.mem_of_find?_eq_some hfind
      have := map_eq_self_fix hsame (key, cands) hmem
      simp only [if_pos rfl] at this
      have hlen := congrArg (fun kv : String × List String => kv.2.length) this
      simp [casualAvatarSequence] at hlen
    · intro kv hkv hne
      rw [hupd]
      have hfix : (fun kv : String × List String =>
          if kv.1 = key then (kv.1, cands ++ casualAvatarSequence) else kv) kv = kv := by
        simp only [if_neg hne]
      exact hfix ▸ List.mem_map_of_mem _ hkv
  · intro state name idx hfind
    simp only [selectAvatarUpdate, hfind]

/-- C10 witness: a call with section label `"hook"` on the initial module
state extends the `"hook"` entry in place by the casual sequence. -/
theorem avatar_priority_mutation_witness :
    (selectAvatarUpdate initialAvatarPriority "hook" 0).2 =
      initialAvatarPriority.map (fun kv =>
        if kv.1 = "hook" then
          (kv.1, ["assets/avatar/pointing_1.png"] ++ casualAvatarSequence)
        else kv) ∧
    ((["assets/avatar/pointing_1.png"] : List String) ++ casualAvatarSequence).length =
      (["assets/avatar/pointing_1.png"] : List String).length + 3 ∧
    (selectAvatarUpdate initialAvatarPriority "hook" 0).2 ≠ initialAvatarPriority ∧
    (∀ kv ∈ initialAvatarPriority, kv.1 ≠ "hook" →
      kv ∈ (selectAvatarUpdate initialAvatarPriority "hook" 0).2) :=
  avatar_priority_mutation.1 initialAvatarPriority "hook" 0 "hook"
    ["assets/avatar/pointing_1.png"] (by decide)

/-- Every segment the loop appends carries the single base resolution the
render computed before the loop. -/
theorem runLoop_usedResolution (fail : ℕ → Bool) (short : Option ShortIn)
    (shortIdx : ℕ) (baseRes : Option (ℕ × ℕ)) (td : ℚ) :
    ∀ (pairs : List (AudioIn × ImageIn)) (i : ℕ) (s : SegmentRec),
      s ∈ (runLoop fail short shortIdx baseRes td i pairs).2.1 →
      s.usedResolution = baseRes := by
  intro pairs
  induction pairs with
  | nil =>
    intro i s hs
    simp [runLoop] at hs
  | cons p rest ih =>
    intro i s hs
    obtain ⟨a, img⟩ := p
    rcases short with _ | sv
    · simp only [runLoop] at hs
      split at hs
      · simp at hs
      · simp only [List.mem_cons] at hs
        rcases hs with rfl | hs
        · rfl
        · exact ih (i + 1) s hs
    · simp only [runLoop] at hs
      split at hs
      · split at hs
        · simp at hs
        · simp only [List.mem_cons] at hs
          rcases hs with rfl | hs
          · rfl
          · exact ih (i + 1) s hs
      · split at hs
        · simp at hs
        · simp only [List.mem_cons] at hs
          rcases hs with rfl | hs
          · rfl
          · exact ih (i + 1) s hs

/-- Every handle the loop opens belongs to an appended pair, except the
audio clip of the iteration that raised, which is reported in the loop's
error. -/
theorem runLoop_handles (fail : ℕ → Bool) (short : Option ShortIn)
    (shortIdx : ℕ) (baseRes : Option (ℕ × ℕ)) (td : ℚ) :
    ∀ (pairs : List (AudioIn × ImageIn)) (i : ℕ) (h : Handle),
      h ∈ (runLoop fail short shortIdx baseRes td i pairs).1 →
      (∃ s ∈ (runLoop fail short shortIdx baseRes td i pairs).2.1,
        h = Handle.segmentAudio s.index ∨ h = Handle.segmentVisual s.index) ∨
      (∃ j, h = Handle.segmentAudio j ∧
        ((runLoop fail short shortIdx baseRes td i pairs).2.2 =
            some (.segmentFailure j) ∨
         (runLoop fail short shortIdx baseRes td i pairs).2.2 =
            some (.nameErrorCompositeVideoClip j))) := by
  intro pairs
  induction pairs with
  | nil =>
    intro i h hh
    simp [runLoop] at hh
  | cons p rest ih =>
    intro i h hh
    obtain ⟨a, img⟩ := p
    rcases short with _ | sv
    · by_cases hf : fail i = true
      · simp only [runLoop, hf, if_true, List.mem_singleton] at hh ⊢
        subst hh
        exact Or.inr ⟨i, rfl, Or.inl rfl⟩
      · simp only [runLoop, hf, Bool.false_eq_true, if_false, List.mem_cons] at hh ⊢
        rcases hh with rfl | rfl | hh
        · exact Or.inl ⟨_, Or.inl rfl, Or.inl rfl⟩
        · exact Or.inl ⟨_, Or.inl rfl, Or.inr rfl⟩
        · rcases ih (i + 1) h hh with ⟨s, hs, hor⟩ | ⟨j, hj, he⟩
          · exact Or.inl ⟨s, Or.inr hs, hor⟩
          · exact Or.inr ⟨j, hj, he⟩
    · by_cases hidx : i = shortIdx
      · by_cases hov : (baseRes.getD (sv.width, sv.height)).1 ≠ 0 ∧
            (baseRes.getD (sv.width, sv.height)).2 ≠ 0
        · simp only [runLoop, hidx, if_true, if_pos hov, List.mem_singleton] at hh ⊢
          subst hh
          exact Or.inr ⟨shortIdx, rfl, Or.inr rfl⟩
        · simp only [runLoop, hidx, if_true, if_neg hov, List.mem_cons] at hh ⊢
          rcases hh with rfl | rfl | hh
          · exact Or.inl ⟨_, Or.inl rfl, Or.inl rfl⟩
          · exact Or.inl ⟨_, Or.inl rfl, Or.inr rfl⟩
          · rcases ih (shortIdx + 1) h hh with ⟨s, hs, hor⟩ | ⟨j, hj, he⟩
            · exact Or.inl ⟨s, Or.inr hs, hor⟩
            · exact Or.inr ⟨j, hj, he⟩
      · by_cases hf : fail i = true
        · simp only [runLoop, hidx, if_false, hf, if_true, List.mem_singleton] at hh ⊢
          subst hh
          exact Or.inr ⟨i, rfl, Or.inl rfl⟩
        · simp only [runLoop, hidx, Bool.false_eq_true, if_false, hf, List.mem_cons] at hh ⊢
          rcases hh with rfl | rfl | hh
          · exact Or.inl ⟨_, Or.inl rfl, Or.inl rfl⟩
          · exact Or.inl ⟨_, Or.inl rfl, Or.inr rfl⟩
          · rcases ih (i + 1) h hh with ⟨s, hs, hor⟩ | ⟨j, hj, he⟩
            · exact Or.inl ⟨s, Or.inr hs, hor⟩
            · exact Or.inr ⟨j, hj, he⟩

/-- The audio and visual handles of an appended pair are closed by the
`finally` block's pair loop. -/
theorem mem_pairClose {segs : List SegmentRec} {s : SegmentRec} (hs : s ∈ segs) :
    Handle.segmentAudio s.index ∈ pairClose segs ∧
    Handle.segmentVisual s.index ∈ pairClose segs := by
  constructor <;>
    · rw [pairClose, List.mem_flatMap]
      exact ⟨s, hs, by simp⟩

/-- Cleanup at the rendering phase: every opened handle is closed, except
the audio clip of a failed iteration, which the phase's error names. -/
theorem renderPhase_cleanup (fail : FailureSpec) (short : Option ShortIn)
    (shortIdx : ℕ) (baseRes : Option (ℕ × ℕ)) (td : ℚ)
    (pairs : List (AudioIn × ImageIn)) (out : String) :
    ∀ h ∈ (renderPhase fail short shortIdx baseRes td pairs out).2.1,
      h ∈ (renderPhase fail short shortIdx baseRes td pairs out).2.2.1 ∨
      ∃ j, h = Handle.segmentAudio j ∧
        ((renderPhase fail short shortIdx baseRes td pairs out).1 =
            .error (.segmentFailure j) ∨
         (renderPhase fail short shortIdx baseRes td pairs out).1 =
            .error (.nameErrorCompositeVideoClip j)) := by
  intro h hh
  simp only [renderPhase] at hh ⊢
  cases hloop : (runLoop fail.segmentFails short shortIdx baseRes td 0 pairs).2.2 with
  | some e =>
    simp only [hloop] at hh ⊢
    rcases List.mem_append.mp hh with hh | hh
    · exact Or.inl (List.mem_append_right _ hh)
    · rcases runLoop_handles fail.segmentFails short shortIdx baseRes td pairs 0 h hh with
        ⟨s, hs, hor⟩ | ⟨j, hj, he⟩
      · rcases hor with rfl | rfl
        · exact Or.inl (List.mem_append_left _ (mem_pairClose hs).1)
        · exact Or.inl (List.mem_append_left _ (mem_pairClose hs).2)
      · refine Or.inr ⟨j, hj, ?_⟩
        rw [hloop] at he
        rcases he with he | he
        · exact Or.inl (by rw [Option.some.injEq] at he; rw [he])
        · exact Or.inr (by rw [Option.some.injEq] at he; rw [he])
  | none =>
    simp only [hloop] at hh ⊢
    have handles := runLoop_handles fail.segmentFails short shortIdx baseRes td pairs 0 h
    by_cases hempty : (runLoop fail.segmentFails short shortIdx baseRes td 0 pairs).2.1.isEmpty = true
    · simp only [hempty, if_true] at hh ⊢
      rcases List.mem_append.mp hh with hh | hh
      · exact Or.inl (List.mem_append_right _ hh)
      · rcases handles hh with ⟨s, hs, hor⟩ | ⟨j, hj, he⟩
        · rcases hor with rfl | rfl
          · exact Or.inl (List.mem_append_left _ (mem_pairClose hs).1)
          · exact Or.inl (List.mem_append_left _ (mem_pairClose hs).2)
        · rw [hloop] at he
          rcases he with he | he <;> exact absurd he (by simp)
    · simp only [hempty, Bool.false_eq_true, if_false] at hh ⊢
      have hmain : h ∈ shortOpenedHandles short ++
            (runLoop fail.segmentFails short shortIdx baseRes td 0 pairs).1 ++
            [Handle.finalClip, Handle.bgMusicBase, Handle.bgMusic, Handle.compositeAudio] →
          h ∈ pairClose (runLoop fail.segmentFails short shortIdx baseRes td 0 pairs).2.1 ++
            [Handle.finalClip, Handle.compositeAudio, Handle.bgMusic, Handle.bgMusicBase] ++
            shortOpenedHandles short := by
        intro hmem
        rcases List.mem_append.mp hmem with hmem | hmem
        · rcases List.mem_append.mp hmem with hmem | hmem
          · exact List.mem_append_right _ hmem
          · rcases handles hmem with ⟨s, hs, hor⟩ | ⟨j, hj, he⟩
            · rcases hor with rfl | rfl
              · exact List.mem_append_left _ (List.mem_append_left _ (mem_pairClose hs).1)
              · exact List.mem_append_left _ (List.mem_append_left _ (mem_pairClose hs).2)
            · rw [hloop] at he
              rcases he with he | he <;> exact absurd he (by simp)
        · refine List.mem_append_left _ (List.mem_append_right _ ?_)
          simp only [List.mem_cons, List.not_mem_nil, or_false] at hmem ⊢
          rcases hmem with rfl | rfl | rfl | rfl <;> simp
      by_cases henc : fail.encodeFails = true
      · simp only [henc, if_true] at hh ⊢
        exact Or.inl (hmain hh)
      · simp only [henc, Bool.false_eq_true, if_false] at hh ⊢
        exact Or.inl (hmain hh)

/-- The rendering phase reports exactly the loop's appended pairs as the
built segments. -/
theorem renderPhase_segments (fail : FailureSpec) (short : Option ShortIn)
    (shortIdx : ℕ) (baseRes : Option (ℕ × ℕ)) (td : ℚ)
    (pairs : List (AudioIn × ImageIn)) (out : String) :
    (renderPhase fail short shortIdx baseRes td pairs out).2.2.2 =
      (runLoop fail.segmentFails short shortIdx baseRes td 0 pairs).2.1 := by
  simp only [renderPhase]
  cases hloop : (runLoop fail.segmentFails short shortIdx baseRes td 0 pairs).2.2 with
  | some e => rfl
  | none =>
    by_cases hempty : (runLoop fail.segmentFails short shortIdx baseRes td 0 pairs).2.1.isEmpty = true
    · simp [hempty]
    · by_cases henc : fail.encodeFails = true <;> simp [hempty, henc]

/-- A `compose_video` call either fails validation — opening no handle and
building no segment — or reaches the rendering phase on the pairs produced
by `_pair_media`, with the short clip, insertion index, base resolution and
transition duration taken from the input. -/
theorem composeRun_fields (inp : ComposeInput) (fail : FailureSpec) :
    ((composeRun inp fail).opened = [] ∧ (composeRun inp fail).closed = [] ∧
     (composeRun inp fail).segments = []) ∨
    ∃ pairs outPath,
      pairMedia inp.audioPaths inp.imagePaths = some pairs ∧
      (composeRun inp fail).outcome =
        (renderPhase fail inp.shortVideoPath inp.shortVideoIndex
          (inputBaseResolution inp) inp.transitionDuration pairs outPath).1 ∧
      (composeRun inp fail).opened =
        (renderPhase fail inp.shortVideoPath inp.shortVideoIndex
          (inputBaseResolution inp) inp.transitionDuration pairs outPath).2.1 ∧
      (composeRun inp fail).closed =
        (renderPhase fail inp.shortVideoPath inp.shortVideoIndex
          (inputBaseResolution inp) inp.transitionDuration pairs outPath).2.2.1 ∧
      (composeRun inp fail).segments =
        (renderPhase fail inp.shortVideoPath inp.shortVideoIndex
          (inputBaseResolution inp) inp.transitionDuration pairs outPath).2.2.2 := by
  simp only [composeRun]
  cases hA : ensurePaths (fun a => (a.path, a.onDisk)) inp.audioPaths "audio" with
  | mk resA evA =>
  cases resA with
  | error e => exact Or.inl ⟨rfl, rfl, rfl⟩
  | ok audioOk =>
  cases hI : ensurePaths (fun im => (im.path, im.onDisk)) inp.imagePaths "image" with
  | mk resI evI =>
  cases resI with
  | error e => exact Or.inl ⟨rfl, rfl, rfl⟩
  | ok imagesOk =>
  cases hS : inp.shortVideoPath with
  | some sv =>
    by_cases hod : sv.onDisk = true
    · simp only [hod, if_true]
      cases hO : composeOutputPath inp.videoTitle inp.videoId with
      | error e => exact Or.inl ⟨rfl, rfl, rfl⟩
      | ok outPath =>
        cases hP : pairMedia inp.audioPaths inp.imagePaths with
        | none => exact Or.inl ⟨rfl, rfl, rfl⟩
        | some pairs =>
          exact Or.inr ⟨pairs, outPath, rfl, rfl, rfl, rfl, rfl⟩
    · simp only [hod, Bool.false_eq_true, if_false]
      refine Or.inl ⟨?_, ?_, ?_⟩ <;> trivial
  | none =>
    cases hO : composeOutputPath inp.videoTitle inp.videoId with
    | error e => exact Or.inl ⟨rfl, rfl, rfl⟩
    | ok outPath =>
      cases hP : pairMedia inp.audioPaths inp.imagePaths with
      | none => exact Or.inl ⟨rfl, rfl, rfl⟩
      | some pairs =>
        exact Or.inr ⟨pairs, outPath, rfl, rfl, rfl, rfl, rfl⟩

/-- C1, amended: whenever `compose_video` reaches rendering, every media
handle acquired during the call is released before the call returns or the
error is surfaced — except the audio clip opened at the top of the loop
iteration that raised (after `AudioFileClip` is opened and before the pair
is appended to `clip_pairs`), which is the one handle the `finally` block
does not reach. -/
theorem compose_video_releases_handles (inp : ComposeInput) (fail : FailureSpec) :
    ∀ h ∈ (composeRun inp fail).opened,
      h ∈ (composeRun inp fail).closed ∨
      ∃ i, h = Handle.segmentAudio i ∧
        ((composeRun inp fail).outcome = .error (.segmentFailure i) ∨
         (composeRun inp fail).outcome = .error (.nameErrorCompositeVideoClip i)) := by
  intro h hh
  rcases composeRun_fields inp fail with ⟨hop, hcl, hseg⟩ |
    ⟨pairs, outPath, hpm, hout, hop, hcl, hseg⟩
  · rw [hop] at hh
    simp at hh
  · rw [hop] at hh
    rcases renderPhase_cleanup fail inp.shortVideoPath inp.shortVideoIndex
        (inputBaseResolution inp) inp.transitionDuration pairs outPath h hh with
      hmem | ⟨j, hj, he⟩
    · rw [hcl]
      exact Or.inl hmem
    · refine Or.inr ⟨j, hj, ?_⟩
      rw [hout]
      exact he

/-- C1 witness: in a successful two-segment render every opened handle is
released. -/
theorem compose_video_releases_handles_witness :
    Handle.segmentAudio 0 ∈
      (composeRun ⟨[⟨"hook.mp3", true, 5⟩], [⟨"img1.png", true, 640, 480⟩], none,
          "Title", "v1", none, 1, 1⟩ ⟨fun _ => false, false⟩).opened ∧
    (Handle.segmentAudio 0 ∈
      (composeRun ⟨[⟨"hook.mp3", true, 5⟩], [⟨"img1.png", true, 640, 480⟩], none,
          "Title", "v1", none, 1, 1⟩ ⟨fun _ => false, false⟩).closed ∨
     ∃ i, Handle.segmentAudio 0 = Handle.segmentAudio i ∧
       ((composeRun ⟨[⟨"hook.mp3", true, 5⟩], [⟨"img1.png", true, 640, 480⟩], none,
           "Title", "v1", none, 1, 1⟩ ⟨fun _ => false, false⟩).outcome =
          .error (.segmentFailure i) ∨
        (composeRun ⟨[⟨"hook.mp3", true, 5⟩], [⟨"img1.png", true, 640, 480⟩], none,
           "Title", "v1", none, 1, 1⟩ ⟨fun _ => false, false⟩).outcome =
          .error (.nameErrorCompositeVideoClip i))) :=
  ⟨by decide, compose_video_releases_handles _ _ _ (by decide)⟩

/-- C1, counterexample: a render of one segment whose image processing
raises after the segment's audio clip is opened (e.g. a missing avatar
asset) leaves that audio clip unreleased when the error is surfaced — the
claim that all acquired handles are released on every exit path is false. -/
theorem compose_video_handle_leak_cex :
    (composeRun ⟨[⟨"hook.mp3", true, 5⟩], [⟨"img1.png", true, 640, 480⟩], none,
        "Title", "v1", none, 1, 1⟩ ⟨fun _ => true, false⟩).outcome =
      .error (.segmentFailure 0) ∧
    Handle.segmentAudio 0 ∈
      (composeRun ⟨[⟨"hook.mp3", true, 5⟩], [⟨"img1.png", true, 640, 480⟩], none,
          "Title", "v1", none, 1, 1⟩ ⟨fun _ => true, false⟩).opened ∧
    Handle.segmentAudio 0 ∉
      (composeRun ⟨[⟨"hook.mp3", true, 5⟩], [⟨"img1.png", true, 640, 480⟩], none,
          "Title", "v1", none, 1, 1⟩ ⟨fun _ => true, false⟩).closed :=
  ⟨rfl, by decide, by decide⟩

/-- C5: the resolved frame size follows explicit > short-clip-native >
first-readable-image-native > none, where a source is readable when it
reports non-zero dimensions; and the resolution is resolved once per
render — every built segment carries the single base resolution computed
before the loop. -/
theorem resolution_priority_spec :
    (∀ (r : ℕ × ℕ) (short : Option (ℕ × ℕ)) (images : List (ℕ × ℕ)),
      determineBaseResolution (some r) short images = some r) ∧
    (∀ (w h : ℕ) (images : List (ℕ × ℕ)), w ≠ 0 → h ≠ 0 →
      determineBaseResolution none (some (w, h)) images = some (w, h)) ∧
    (∀ (short : Option (ℕ × ℕ)) (images : List (ℕ × ℕ)),
      (short = none ∨ ∃ w h, short = some (w, h) ∧ (w = 0 ∨ h = 0)) →
      determineBaseResolution none short images = firstImageResolution images) ∧
    (∀ (pre : List (ℕ × ℕ)) (w h : ℕ) (rest : List (ℕ × ℕ)),
      (∀ p ∈ pre, p.1 = 0 ∨ p.2 = 0) → w ≠ 0 → h ≠ 0 →
      firstImageResolution (pre ++ (w, h) :: rest) = some (w, h)) ∧
    (∀ images : List (ℕ × ℕ), (∀ p ∈ images, p.1 = 0 ∨ p.2 = 0) →
      firstImageResolution images = none) ∧
    (∀ (inp : ComposeInput) (fail : FailureSpec) (s : SegmentRec),
      s ∈ (composeRun inp fail).segments → s.usedResolution = inputBaseResolution inp) := by
  refine ⟨fun r short images => rfl, ?_, ?_, ?_, ?_, ?_⟩
  · intro w h images hw hh
    simp only [determineBaseResolution]
    rw [if_pos ⟨hw, hh⟩]
  · intro short images hcase
    rcases hcase with rfl | ⟨w, h, rfl, hzero⟩
    · rfl
    · simp only [determineBaseResolution]
      rw [if_neg (by tauto)]
  · intro pre
    induction pre with
    | nil =>
      intro w h rest hpre hw hh
      simp only [List.nil_append, firstImageResolution]
      rw [if_pos ⟨hw, hh⟩]
    | cons p pre2 ih =>
      intro w h rest hpre hw hh
      obtain ⟨pw, ph⟩ := p
      simp only [List.cons_append, firstImageResolution]
      rw [if_neg (by have := hpre (pw, ph) (List.mem_cons_self _ _); tauto)]
      exact ih w h rest (fun q hq => hpre q (List.mem_cons_of_mem _ hq)) hw hh
  · intro images
    induction images with
    | nil => intro _; rfl
    | cons p rest ih =>
      intro hall
      obtain ⟨pw, ph⟩ := p
      simp only [firstImageResolution]
      rw [if_neg (by have := hall (pw, ph) (List.mem_cons_self _ _); tauto)]
      exact ih (fun q hq => hall q (List.mem_cons_of_mem _ hq))
  · intro inp fail s hs
    rcases composeRun_fields inp fail with ⟨_, _, hseg⟩ |
      ⟨pairs, outPath, hpm, hout, hop, hcl, hseg⟩
    · rw [hseg] at hs
      simp at hs
    · rw [hseg, renderPhase_segments] at hs
      exact runLoop_usedResolution fail.segmentFails inp.shortVideoPath
        inp.shortVideoIndex (inputBaseResolution inp) inp.transitionDuration
        pairs 0 s hs

/-- C5 witness: concrete instances of each priority rule. -/
theorem resolution_priority_witness :
    determineBaseResolution (some (1280, 720)) (some (1920, 1080)) [(640, 480)] =
      some (1280, 720) ∧
    determineBaseResolution none (some (1920, 1080)) [(640, 480)] = some (1920, 1080) ∧
    determineBaseResolution none none [(0, 0), (640, 480)] =
      firstImageResolution [(0, 0), (640, 480)] ∧
    firstImageResolution ([(0, 0)] ++ (640, 480) :: []) = some (640, 480) :=
  ⟨resolution_priority_spec.1 (1280, 720) (some (1920, 1080)) [(640, 480)],
   resolution_priority_spec.2.1 1920 1080 [(640, 480)] (by decide) (by decide),
   resolution_priority_spec.2.2.1 none [(0, 0), (640, 480)] (Or.inl rfl),
   resolution_priority_spec.2.2.2.1 [(0, 0)] 640 480 [] (by decide) (by decide) (by decide)⟩

/-- C8: the short-clip insertion path is unreachable in the shipped code —
`CompositeVideoClip` (generate.py line 314) is never imported, so a call
with a short clip at insertion index 1 raises `NameError` while processing
segment 1 instead of producing a segment whose visual is the short clip
trimmed to the segment's audio duration; only segment 0 is ever built. -/
theorem short_clip_composite_name_error :
    (composeRun
        ⟨[⟨"hook.mp3", true, 5⟩, ⟨"scene_1.mp3", true, 6⟩],
         [⟨"img1.png", true, 640, 480⟩],
         some ⟨"short.mp4", true, 1080, 1920, 12⟩,
         "Title", "v1", none, 1, 1⟩
        ⟨fun _ => false, false⟩).outcome =
      .error (.nameErrorCompositeVideoClip 1) ∧
    ((composeRun
        ⟨[⟨"hook.mp3", true, 5⟩, ⟨"scene_1.mp3", true, 6⟩],
         [⟨"img1.png", true, 640, 480⟩],
         some ⟨"short.mp4", true, 1080, 1920, 12⟩,
         "Title", "v1", none, 1, 1⟩
        ⟨fun _ => false, false⟩).segments.map SegmentRec.index) = [0] :=
  ⟨rfl, rfl⟩
